import Mathlib

/-!
Shallow embedding of the hoconenv HOCON-to-environment loader
(repository ezrantn/hoconenv, file hoconenv.go).

Strings are modelled as `List Char` (`Str`), so that the Go standard
library string helpers used by the source (strings.TrimSpace,
strings.HasPrefix, strings.SplitN, strings.Index, ...) become small
recursive functions amenable to both evaluation and induction.

The mutually recursive load machinery (loadFile / the two line-scanning
loops / parseLine / handleInclude / the four include handlers) is
modelled as a single fuel-indexed interpreter `run` over a `Call`
descriptor, one constructor per Go function (plus one per in-function
loop).  Fuel decreases on every call edge, making the recursion
structural; exhausting fuel yields the artificial error `Err.fuelOut`,
which no real execution of the Go code corresponds to.

State: the Go `Config` fields (`prefix`, `loadedFiles`, `variables`),
the process environment written by `os.Setenv`, and a ghost `fetchLog`
recording every URL passed to `client.Get` (the Go code keeps no such
log; the field only observes fetches and influences nothing).
`os.Setenv` is modelled as always succeeding.  Go maps are modelled as
association lists: `map[string]bool` ledgers as a list of members
(insert = prepend), `map[string]string` as `mapInsert` (replace in
place, append new keys at the end).
-/

/-- Go strings, modelled as lists of characters. -/
abbrev Str := List Char

/-- Coerce a Lean string literal into the model's string type. -/
def str (s : String) : Str := s.data

/-- The double-quote character. -/
def dquote : Char := Char.ofNat 34

/-- The single-quote character. -/
def squote : Char := Char.ofNat 39

/-- Characters treated as whitespace by strings.TrimSpace (ASCII part of
unicode.IsSpace; non-ASCII white space is not modelled). -/
def isGoSpace (c : Char) : Bool :=
  c = ' ' || c = '\t' || c = '\n' || c = '\x0b' || c = '\x0c' || c = '\r'

/-- Models strings.TrimSpace. -/
def goTrimSpace (s : Str) : Str :=
  ((s.dropWhile isGoSpace).reverse.dropWhile isGoSpace).reverse

/-- Models strings.HasPrefix. -/
def goHasPrefix (s pre : Str) : Bool := pre.isPrefixOf s

/-- Models strings.HasSuffix. -/
def goHasSuffix (s suf : Str) : Bool := suf.isSuffixOf s

/-- Models strings.TrimPrefix. -/
def goTrimPrefix (s pre : Str) : Str :=
  if goHasPrefix s pre then s.drop pre.length else s

/-- Models strings.TrimSuffix. -/
def goTrimSuffix (s suf : Str) : Str :=
  if goHasSuffix s suf then s.take (s.length - suf.length) else s

/-- Models strings.Trim with a cutset: repeatedly remove leading and
trailing characters belonging to `cut`. -/
def goTrim (s : Str) (cut : List Char) : Str :=
  ((s.dropWhile cut.contains).reverse.dropWhile cut.contains).reverse

/-- Models strings.SplitN s sep 2 for a one-character separator: the Go
call returns `[s]` when `sep` does not occur (second component `none`
here), and the pieces before and after the first occurrence otherwise. -/
def goSplitN2 (s : Str) (c : Char) : Str × Option Str :=
  match s with
  | [] => ([], none)
  | x :: xs =>
    if x = c then ([], some xs)
    else
      let r := goSplitN2 xs c
      (x :: r.1, r.2)

/-- Models the combination `strings.Index value c` followed by
`value[:idx]` (keep everything before the first occurrence of `c`;
keep the whole string when `c` does not occur). -/
def cutAtChar (c : Char) : Str → Str
  | [] => []
  | x :: xs => if x = c then [] else x :: cutAtChar c xs

/-- Models strings.ToUpper (ASCII). -/
def goToUpper (s : Str) : Str := s.map Char.toUpper

/-- Models strings.ReplaceAll for one-character patterns. -/
def goReplaceAll (s : Str) (a b : Char) : Str :=
  s.map fun c => if c = a then b else c

/-- Models filepath.IsAbs for slash-separated paths. -/
def isAbs (p : Str) : Bool :=
  match p with
  | [] => false
  | c :: _ => c = '/'

/-- Models filepath.Dir for slash-separated paths (the Clean
normalization of redundant separators is not modelled; the concrete
paths used below contain none). -/
def goDir (p : Str) : Str :=
  if p.contains '/' then
    let base := (p.reverse.takeWhile fun c => c != '/').reverse
    let pre := p.take (p.length - base.length - 1)
    if pre.isEmpty then str "/" else pre
  else str "."

/-- Models filepath.Join of two components (again without Clean
normalization). -/
def goJoin (a b : Str) : Str :=
  if a.isEmpty then b else if b.isEmpty then a else a ++ '/' :: b

/-- Association-list lookup, modelling Go map reads. -/
def alookup {α : Type} : List (Str × α) → Str → Option α
  | [], _ => none
  | (k, v) :: rest, k0 => if k = k0 then some v else alookup rest k0

/-- Association-list insert, modelling Go map writes: replace the
binding in place when the key is present, append otherwise. -/
def mapInsert : List (Str × Str) → Str → Str → List (Str × Str)
  | [], k, v => [(k, v)]
  | (k0, v0) :: rest, k, v =>
    if k0 = k then (k0, v) :: rest else (k0, v0) :: mapInsert rest k v

/-- Models Options (hoconenv.go lines 24-29).  DefaultPrefix is carried
for fidelity but only consumed by the excluded top-level wrapper. -/
structure Options where
  IgnoreErrors : Bool
  OverwriteEnv : Bool
  DefaultPrefix : Str
  IncludePatterns : List Str
deriving DecidableEq, Repr

/-- Models DefaultOptions (hoconenv.go lines 42-49). -/
def defaultOptions : Options :=
  ⟨false, true, [], [str ".conf", str ".hocon"]⟩

/-- One entry of an os.ReadDir listing. -/
structure DirEntry where
  name : Str
  isDir : Bool
deriving DecidableEq, Repr

/-- The external world: file contents by path (absent = os.Open fails),
directory listings (absent = os.ReadDir fails), filepath.Glob results
(`none` = ErrBadPattern, an unlisted pattern has no matches), and HTTP
responses as status code plus body lines (absent = network failure).
url.Parse is modelled as always succeeding (it fails only on control
characters, which no input here contains). -/
structure World where
  files : List (Str × List Str)
  dirs : List (Str × List DirEntry)
  globs : List (Str × Option (List Str))
  urls : List (Str × (Nat × List Str))
deriving Repr

/-- Result of filepath.Glob in the model. -/
def globLookup (w : World) (pat : Str) : Option (List Str) :=
  match alookup w.globs pat with
  | some r => r
  | none => some []

/-- The scheme of a URL as url.Parse reports it (text before the first
colon; empty when there is no colon). -/
def urlScheme (u : Str) : Str :=
  if u.contains ':' then u.takeWhile fun c => c != ':' else []

/-- Session plus process state: the Config fields prefix (`prefixStr`),
`loadedFiles` (the Load Ledger, as a list of members) and `variables`
(the Variable Table), the process environment, and the ghost log of
URLs fetched. -/
structure St where
  prefixStr : Str
  loadedFiles : List Str
  vars : List (Str × Str)
  env : List (Str × Str)
  fetchLog : List Str
deriving DecidableEq, Repr

/-- The state of a fresh session (NewConfig) with an empty environment. -/
def emptySt : St := ⟨[], [], [], [], []⟩

/-- Errors returned by the loader, one constructor per fmt.Errorf site,
carrying exactly the data interpolated into the Go message.  `fuelOut`
is the artificial fuel-exhaustion marker of the model. -/
inductive Err where
  | fuelOut
  | openFailed (path : Str)
  | invalidSyntax (path : Str) (lineNum : Nat) (line : Str)
  | includeFileFailed (path : Str) (inner : Err)
  | unsupportedScheme (url : Str)
  | fetchFailed (url : Str)
  | fetchStatus (url : Str) (code : Nat)
  | readDirFailed (dir : Str)
  | includeDirFileFailed (path : Str) (inner : Err)
  | invalidGlob (pat : Str)
  | noGlobMatches (pat : Str)
  | includeGlobFileFailed (path : Str) (inner : Err)
deriving DecidableEq, Repr

/-- Models Config.SetPrefix (hoconenv.go lines 69-73):
`c.prefix = strings.ToUpper(strings.TrimSpace(prefix)) + "_"`. -/
def setPrefix (st : St) (p : Str) : St :=
  { st with prefixStr := goToUpper (goTrimSpace p) ++ ['_'] }

/-- Models processValue (hoconenv.go lines 218-230): strip one outer
pair of double quotes when the value starts and ends with one, then
truncate at the first `#`, then TrimSpace.  (For the one-character
value consisting of a lone double quote the Go slice value[1:0] would
panic; the model returns the empty string there.  No claim concerns
that input.) -/
def processValue (value : Str) : Str :=
  let v1 :=
    if goHasPrefix value [dquote] && goHasSuffix value [dquote] then
      (value.drop 1).dropLast
    else value
  goTrimSpace (cutAtChar '#' v1)

/-- Models buildFullKey (hoconenv.go lines 233-238). -/
def buildFullKey (keyStack : List Str) (key : Str) : Str :=
  if keyStack.isEmpty then key
  else List.intercalate ['.'] keyStack ++ '.' :: key

/-- The include kinds dispatched by handleInclude's switch. -/
inductive IncKind where
  | file
  | url
  | directory
  | glob
deriving DecidableEq, Repr

/-- A parsed include directive. -/
structure Directive where
  kind : IncKind
  target : Str
  required : Bool
deriving DecidableEq, Repr

/-- Models the string analysis of handleInclude (hoconenv.go lines
241-281): drop the include keyword, TrimSpace, Trim quotes, recognize
an optional(...) wrapper, then dispatch on url( / directory( / a `*`
wildcard / plain file, extracting the target exactly as each Go branch
does. -/
def parseIncludeDirective (value : Str) : Directive :=
  let s0 := goTrimSpace (goTrimPrefix value (str "include"))
  let s1 := goTrim s0 [dquote, squote]
  let isRequired := !(goHasPrefix s1 (str "optional(") && goHasSuffix s1 (str ")"))
  let s2 :=
    if goHasPrefix s1 (str "optional(") && goHasSuffix s1 (str ")") then
      goTrim (goTrimSuffix (goTrimPrefix s1 (str "optional(")) (str ")")) [dquote, squote]
    else s1
  if goHasPrefix s2 (str "url(") then
    ⟨.url, goTrim (goTrimSuffix (goTrimPrefix s2 (str "url(")) (str ")")) [dquote, squote],
      isRequired⟩
  else if goHasPrefix s2 (str "directory(") then
    ⟨.directory,
      goTrim (goTrimSuffix (goTrimPrefix s2 (str "directory(")) (str ")")) [dquote, squote],
      isRequired⟩
  else if s2.contains '*' then ⟨.glob, s2, isRequired⟩
  else ⟨.file, s2, isRequired⟩

/-- The loop of applyVariables (hoconenv.go lines 434-447): for each
Variable Table entry compute `prefix + ToUpper(ReplaceAll(key,".","_"))`
and publish it, skipping keys already present in the environment when
OverwriteEnv is off.  os.Setenv is modelled as always succeeding. -/
def applyLoop (opts : Options) (pfx : Str) :
    List (Str × Str) → List (Str × Str) → List (Str × Str)
  | [], env => env
  | (k, v) :: rest, env =>
    let envKey := pfx ++ goToUpper (goReplaceAll k '.' '_')
    if !opts.OverwriteEnv && (alookup env envKey).isSome then
      applyLoop opts pfx rest env
    else applyLoop opts pfx rest (mapInsert env envKey v)

/-- Models applyVariables (hoconenv.go lines 430-450). -/
def applyVariables (opts : Options) (st : St) : St × Option Err :=
  ({ st with env := applyLoop opts st.prefixStr st.vars st.env }, none)

/-- Models GetVariable (hoconenv.go lines 453-458). -/
def getVariable (st : St) (key : Str) : Option Str :=
  alookup st.vars key

/-- Call descriptors for the mutually recursive load machinery, one per
Go function, plus one per in-function loop: `scanLoop` is the shared
line loop of loadFile (lines 147-159) and handleURLInclude (lines
345-356); `dirLoop` and `globLoop` are the for-loops of
handleDirectoryInclude and handleGlobInclude. -/
inductive Call where
  | loadFile (filePath : Str)
  | scanLoop (srcPath : Str) (lines : List Str) (lineNum : Nat) (keyStack : List Str)
  | parseLine (line : Str) (keyStack : List Str) (filePath : Str) (lineNum : Nat)
  | handleInclude (value : Str) (currentFile : Str)
  | handleFileInclude (file : Str) (required : Bool) (currentFile : Str)
  | handleURLInclude (urlStr : Str) (required : Bool)
  | handleDirectoryInclude (dir : Str) (required : Bool) (currentFile : Str)
  | dirLoop (dir : Str) (entries : List DirEntry) (required : Bool)
  | handleGlobInclude (pat : Str) (required : Bool) (currentFile : Str)
  | globLoop (ms : List Str) (required : Bool)
deriving Repr

/-- Result of one call: the state, the key stack handed back (only
meaningful for parseLine/scanLoop, whose Go originals mutate it through
a pointer), and the returned error if any. -/
structure Out where
  st : St
  keyStack : List Str
  err : Option Err
deriving DecidableEq, Repr

/-- The fuel-indexed interpreter for the load machinery of hoconenv.go.
Each constructor's branch is the direct transcription of the Go
function of the same name (line references in the Call doc above);
fuel decreases on every call edge and running out yields Err.fuelOut. -/
def run (w : World) (opts : Options) : Nat → Call → St → Out
  | 0, _, st => ⟨st, [], some .fuelOut⟩
  | fuel + 1, .loadFile filePath, st =>
    -- loadFile, lines 128-167
    if filePath ∈ st.loadedFiles then ⟨st, [], none⟩
    else
      let st1 := { st with loadedFiles := filePath :: st.loadedFiles }
      match alookup w.files filePath with
      | none => ⟨st1, [], some (.openFailed filePath)⟩
      | some lines =>
        let o := run w opts fuel (.scanLoop filePath lines 0 []) st1
        match o.err with
        | some e => ⟨o.st, [], some e⟩
        | none =>
          let a := applyVariables opts o.st
          ⟨a.1, [], a.2⟩
  | fuel + 1, .scanLoop srcPath lines lineNum keyStack, st =>
    -- the shared scanner loop of loadFile and handleURLInclude
    match lines with
    | [] => ⟨st, keyStack, none⟩
    | l :: rest =>
      let line := goTrimSpace l
      if line.isEmpty || goHasPrefix line (str "#") || goHasPrefix line (str "//") then
        run w opts fuel (.scanLoop srcPath rest (lineNum + 1) keyStack) st
      else
        let o := run w opts fuel (.parseLine line keyStack srcPath (lineNum + 1)) st
        match o.err with
        | some e =>
          if opts.IgnoreErrors then
            run w opts fuel (.scanLoop srcPath rest (lineNum + 1) o.keyStack) o.st
          else ⟨o.st, o.keyStack, some e⟩
        | none => run w opts fuel (.scanLoop srcPath rest (lineNum + 1) o.keyStack) o.st
  | fuel + 1, .parseLine line keyStack filePath lineNum, st =>
    -- parseLine, lines 170-215
    if goHasPrefix line (str "include ") then
      let o := run w opts fuel (.handleInclude line filePath) st
      ⟨o.st, keyStack, o.err⟩
    else if goHasSuffix line (str "\x7b") then
      ⟨st, keyStack ++ [goTrimSpace (goTrimSuffix line (str "\x7b"))], none⟩
    else if line = str "\x7d" then
      ⟨st, keyStack.dropLast, none⟩
    else
      match goSplitN2 line '=' with
      | (_, none) => ⟨st, keyStack, some (.invalidSyntax filePath lineNum line)⟩
      | (partKey, some partVal) =>
        let key := goTrimSpace partKey
        let value := goTrimSpace partVal
        if goHasPrefix value (str "include") then
          let o := run w opts fuel (.handleInclude value filePath) st
          ⟨o.st, keyStack, o.err⟩
        else
          ⟨{ st with
              vars := mapInsert st.vars (buildFullKey keyStack key) (processValue value) },
            keyStack, none⟩
  | fuel + 1, .handleInclude value currentFile, st =>
    -- handleInclude, lines 241-281
    let d := parseIncludeDirective value
    match d.kind with
    | .url => run w opts fuel (.handleURLInclude d.target d.required) st
    | .directory => run w opts fuel (.handleDirectoryInclude d.target d.required currentFile) st
    | .glob => run w opts fuel (.handleGlobInclude d.target d.required currentFile) st
    | .file => run w opts fuel (.handleFileInclude d.target d.required currentFile) st
  | fuel + 1, .handleFileInclude file required currentFile, st =>
    -- handleFileInclude, lines 284-297
    let file1 := if isAbs file then file else goJoin (goDir currentFile) file
    let o := run w opts fuel (.loadFile file1) st
    match o.err with
    | some e =>
      if required then ⟨o.st, [], some (.includeFileFailed file1 e)⟩
      else ⟨o.st, [], none⟩
    | none => ⟨o.st, [], none⟩
  | fuel + 1, .handleURLInclude urlStr required, st =>
    -- handleURLInclude, lines 300-359
    if urlScheme urlStr ≠ str "http" ∧ urlScheme urlStr ≠ str "https" then
      if required then ⟨st, [], some (.unsupportedScheme urlStr)⟩ else ⟨st, [], none⟩
    else
      let st1 := { st with fetchLog := st.fetchLog ++ [urlStr] }
      match alookup w.urls urlStr with
      | none =>
        if required then ⟨st1, [], some (.fetchFailed urlStr)⟩ else ⟨st1, [], none⟩
      | some (code, lines) =>
        if code ≠ 200 then
          if required then ⟨st1, [], some (.fetchStatus urlStr code)⟩ else ⟨st1, [], none⟩
        else
          let o := run w opts fuel (.scanLoop urlStr lines 0 []) st1
          ⟨o.st, [], o.err⟩
  | fuel + 1, .handleDirectoryInclude dir required currentFile, st =>
    -- handleDirectoryInclude, lines 362-399
    let dir1 := if isAbs dir then dir else goJoin (goDir currentFile) dir
    match alookup w.dirs dir1 with
    | none =>
      if required then ⟨st, [], some (.readDirFailed dir1)⟩ else ⟨st, [], none⟩
    | some entries => run w opts fuel (.dirLoop dir1 entries required) st
  | fuel + 1, .dirLoop dir entries required, st =>
    match entries with
    | [] => ⟨st, [], none⟩
    | f :: rest =>
      if f.isDir then run w opts fuel (.dirLoop dir rest required) st
      else if opts.IncludePatterns.any fun pat => goHasSuffix f.name pat then
        let filePath := goJoin dir f.name
        let o := run w opts fuel (.loadFile filePath) st
        match o.err with
        | some e =>
          if required then ⟨o.st, [], some (.includeDirFileFailed filePath e)⟩
          else run w opts fuel (.dirLoop dir rest required) o.st
        | none => run w opts fuel (.dirLoop dir rest required) o.st
      else run w opts fuel (.dirLoop dir rest required) st
  | fuel + 1, .handleGlobInclude pat required currentFile, st =>
    -- handleGlobInclude, lines 402-427
    let pat1 := if isAbs pat then pat else goJoin (goDir currentFile) pat
    match globLookup w pat1 with
    | none =>
      if required then ⟨st, [], some (.invalidGlob pat1)⟩ else ⟨st, [], none⟩
    | some ms =>
      if ms.isEmpty && required then ⟨st, [], some (.noGlobMatches pat1)⟩
      else run w opts fuel (.globLoop ms required) st
  | fuel + 1, .globLoop ms required, st =>
    match ms with
    | [] => ⟨st, [], none⟩
    | m :: rest =>
      let o := run w opts fuel (.loadFile m) st
      match o.err with
      | some e =>
        if required then ⟨o.st, [], some (.includeGlobFileFailed m e)⟩
        else run w opts fuel (.globLoop rest required) o.st
      | none => run w opts fuel (.globLoop rest required) o.st


/-- A world with no files, directories, glob matches or URLs. -/
def emptyWorld : World := ⟨[], [], [], []⟩

/-- A session state in which `/a.conf` is already recorded in the Load
Ledger and one variable is stored. -/
def stC1 : St := ⟨[], [str "/a.conf"], [(str "k", str "v")], [], []⟩

/-- World for the URL-include scenarios: `/m.conf` includes the same
URL twice; the URL serves one assignment with status 200. -/
def wC2 : World :=
  ⟨[(str "/m.conf",
      [str "include url(\"http://h/c\")", str "include url(\"http://h/c\")"])],
    [], [], [(str "http://h/c", (200, [str "k = v"]))]⟩

/-- World for the directory-include failure scenarios: directory `/d`
lists `a.conf`, but no file `/d/a.conf` exists, so loading it fails. -/
def wC3 : World := ⟨[], [(str "/d", [⟨str "a.conf", false⟩])], [], []⟩

/-- World for the glob scenario: the pattern `/g/*.conf` matches two
files holding `x = 1` and `y = 2`. -/
def wC7 : World :=
  ⟨[(str "/g/a.conf", [str "x = 1"]), (str "/g/b.conf", [str "y = 2"])],
    [], [(str "/g/*.conf", some [str "/g/a.conf", str "/g/b.conf"])], []⟩

/-- World for the directory-include pattern-filter counterexample: `/d`
contains the regular file `c.txt` (with content `x = 1`), whose name
matches no configured include pattern. -/
def wC8txt : World :=
  ⟨[(str "/d/c.txt", [str "x = 1"])], [(str "/d", [⟨str "c.txt", false⟩])], [], []⟩

/-- World for the directory scenario of C8: `/d` contains `a.conf`
(`x = 1`) and `b.conf` (`y = 2`); two listings with the two iteration
orders are provided as `/d` and `/d2`. -/
def wC8 : World :=
  ⟨[(str "/d/a.conf", [str "x = 1"]), (str "/d/b.conf", [str "y = 2"]),
    (str "/d2/a.conf", [str "x = 1"]), (str "/d2/b.conf", [str "y = 2"])],
    [(str "/d", [⟨str "a.conf", false⟩, ⟨str "b.conf", false⟩]),
     (str "/d2", [⟨str "b.conf", false⟩, ⟨str "a.conf", false⟩])], [], []⟩

/-- Monotonicity relation between states: the Load Ledger only gains
members, the Variable Table's key set only grows, and the fetch log is
append-only.  Every step of the load machinery respects it. -/
def StMono (s t : St) : Prop :=
  (∀ p, p ∈ s.loadedFiles → p ∈ t.loadedFiles)
  ∧ (∀ k, k ∈ s.vars.map Prod.fst → k ∈ t.vars.map Prod.fst)
  ∧ s.fetchLog <+: t.fetchLog

theorem stMono_refl (st : St) : StMono st st :=
  ⟨fun _ h => h, fun _ h => h, List.prefix_refl _⟩

theorem stMono_trans {a b c : St} (h1 : StMono a b) (h2 : StMono b c) : StMono a c :=
  ⟨fun p hp => h2.1 p (h1.1 p hp), fun k hk => h2.2.1 k (h1.2.1 k hk), h1.2.2.trans h2.2.2⟩

theorem stMono_mark (st : St) (p : Str) :
    StMono st { st with loadedFiles := p :: st.loadedFiles } :=
  ⟨fun _ h => List.mem_cons_of_mem _ h, fun _ h => h, List.prefix_refl _⟩

theorem stMono_fetch (st : St) (u : Str) :
    StMono st { st with fetchLog := st.fetchLog ++ [u] } :=
  ⟨fun _ h => h, fun _ h => h, List.prefix_append _ _⟩

theorem mem_map_fst_mapInsert (m : List (Str × Str)) (k v k0 : Str)
    (h : k0 ∈ m.map Prod.fst) : k0 ∈ (mapInsert m k v).map Prod.fst := by
  induction m with
  | nil => simp at h
  | cons a rest ih =>
    obtain ⟨a1, a2⟩ := a
    simp only [mapInsert]
    by_cases hk : a1 = k
    · simp only [if_pos hk, List.map_cons]
      simpa using h
    · simp only [if_neg hk, List.map_cons, List.mem_cons] at h ⊢
      rcases h with h | h
      · exact Or.inl h
      · exact Or.inr (ih h)

theorem stMono_insertVar (st : St) (k v : Str) :
    StMono st { st with vars := mapInsert st.vars k v } :=
  ⟨fun _ h => h, fun _ h => mem_map_fst_mapInsert _ _ _ _ h, List.prefix_refl _⟩

theorem stMono_apply (opts : Options) (st : St) :
    StMono st (applyVariables opts st).1 :=
  ⟨fun _ h => h, fun _ h => h, List.prefix_refl _⟩

/-- Every call of the load machinery is monotone: ledger entries are
never removed, Variable Table keys are never dropped, and the fetch log
is append-only. -/
theorem run_mono (w : World) (opts : Options) :
    ∀ (fuel : Nat) (c : Call) (st : St), StMono st (run w opts fuel c st).st := by
  intro fuel
  induction fuel with
  | zero => intro c st; exact stMono_refl st
  | succ fuel ih =>
    intro c st
    cases c with
    | loadFile filePath =>
      simp only [run]
      split
      · exact stMono_refl st
      · split
        · exact stMono_mark st filePath
        · split
          · exact stMono_trans (stMono_mark st filePath) (ih _ _)
          · exact stMono_trans (stMono_trans (stMono_mark st filePath) (ih _ _))
              (stMono_apply opts _)
    | scanLoop srcPath lines lineNum keyStack =>
      simp only [run]
      split
      · exact stMono_refl st
      · split
        · exact ih _ _
        · split
          · split
            · exact stMono_trans (ih _ _) (ih _ _)
            · exact ih _ _
          · exact stMono_trans (ih _ _) (ih _ _)
    | parseLine line keyStack filePath lineNum =>
      simp only [run]
      split
      · exact ih _ _
      · split
        · exact stMono_refl st
        · split
          · exact stMono_refl st
          · split
            · exact stMono_refl st
            · split
              · exact ih _ _
              · exact stMono_insertVar st _ _
    | handleInclude value currentFile =>
      simp only [run]
      split <;> exact ih _ _
    | handleFileInclude file required currentFile =>
      simp only [run]
      split
      · split <;> exact ih _ _
      · exact ih _ _
    | handleURLInclude urlStr required =>
      simp only [run]
      split
      · split <;> exact stMono_refl st
      · split
        · split <;> exact stMono_fetch st urlStr
        · split
          · split <;> exact stMono_fetch st urlStr
          · exact stMono_trans (stMono_fetch st urlStr) (ih _ _)
    | handleDirectoryInclude dir required currentFile =>
      simp only [run]
      split
      · split <;> exact stMono_refl st
      · exact ih _ _
    | dirLoop dir entries required =>
      simp only [run]
      split
      · exact stMono_refl st
      · split
        · exact ih _ _
        · split
          · split
            · split
              · exact ih _ _
              · exact stMono_trans (ih _ _) (ih _ _)
            · exact stMono_trans (ih _ _) (ih _ _)
          · exact ih _ _
    | handleGlobInclude pat required currentFile =>
      simp only [run]
      split
      · split <;> exact stMono_refl st
      · split
        · exact stMono_refl st
        · exact ih _ _
    | globLoop ms required =>
      simp only [run]
      split
      · exact stMono_refl st
      · split
        · split
          · exact ih _ _
          · exact stMono_trans (ih _ _) (ih _ _)
        · exact stMono_trans (ih _ _) (ih _ _)

/-- loadFile records the path in the Load Ledger before any read:
whatever happens afterwards, the path is in the ledger of the result. -/
theorem loadFile_marks (w : World) (opts : Options) (fuel : Nat) (p : Str) (st : St) :
    p ∈ (run w opts (fuel + 1) (.loadFile p) st).st.loadedFiles := by
  simp only [run]
  by_cases h : p ∈ st.loadedFiles
  · simp only [if_pos h]
    exact h
  · simp only [if_neg h]
    split
    · exact List.mem_cons_self _ _
    · split
      · exact (run_mono w opts fuel _ _).1 p (List.mem_cons_self _ _)
      · exact (run_mono w opts fuel _ _).1 p (List.mem_cons_self _ _)

/-- C1: a path is entered in the Load Ledger before its contents are
read — whether or not the read succeeds, the path is in the resulting
ledger — ledger entries are never removed by any load operation, and a
load of a path already in the ledger returns success immediately with
the whole state (in particular the Variable Table) unchanged. -/
theorem c1_load_ledger :
    (∀ (w : World) (opts : Options) (fuel : Nat) (p : Str) (st : St),
        p ∈ st.loadedFiles → run w opts (fuel + 1) (.loadFile p) st = ⟨st, [], none⟩)
    ∧ (∀ (w : World) (opts : Options) (fuel : Nat) (p : Str) (st : St),
        p ∈ (run w opts (fuel + 1) (.loadFile p) st).st.loadedFiles)
    ∧ (∀ (w : World) (opts : Options) (fuel : Nat) (c : Call) (st : St) (q : Str),
        q ∈ st.loadedFiles → q ∈ (run w opts fuel c st).st.loadedFiles) := by
  refine ⟨fun w opts fuel p st h => ?_, loadFile_marks, fun w opts fuel c st q hq => (run_mono w opts fuel c st).1 q hq⟩
  simp only [run, if_pos h]

/-- Witness for C1 at a concrete state whose ledger already holds
`/a.conf`: re-loading returns success immediately and changes nothing. -/
theorem c1_load_ledger_witness :
    (str "/a.conf") ∈ stC1.loadedFiles ∧
      run emptyWorld defaultOptions 5 (.loadFile (str "/a.conf")) stC1 = ⟨stC1, [], none⟩ :=
  ⟨by decide, c1_load_ledger.1 emptyWorld defaultOptions 4 (str "/a.conf") stC1 (by decide)⟩

/-- strings.SplitN on a one-character separator returns a single piece
(no second component) exactly when the separator does not occur. -/
theorem goSplitN2_none_iff (s : Str) (c : Char) : (goSplitN2 s c).2 = none ↔ c ∉ s := by
  induction s with
  | nil => simp [goSplitN2]
  | cons x xs ih =>
    simp only [goSplitN2]
    by_cases h : x = c
    · simp [h]
    · simp only [if_neg h, List.mem_cons]
      rw [ih]
      constructor
      · rintro hn (hc | hc)
        · exact h hc.symm
        · exact hn hc
      · intro hn hc
        exact hn (Or.inr hc)

theorem cutAtChar_not_mem (c : Char) (a : Str) (h : c ∉ a) : cutAtChar c a = a := by
  induction a with
  | nil => rfl
  | cons x xs ih =>
    simp only [List.mem_cons, not_or] at h
    have hx : x ≠ c := fun hc => h.1 hc.symm
    simp [cutAtChar, hx, ih h.2]

theorem cutAtChar_first (c : Char) (a b : Str) (h : c ∉ a) :
    cutAtChar c (a ++ c :: b) = a := by
  induction a with
  | nil => simp [cutAtChar]
  | cons x xs ih =>
    simp only [List.mem_cons, not_or] at h
    have hx : x ≠ c := fun hc => h.1 hc.symm
    simp [cutAtChar, hx, ih h.2]

/-- C4: processValue strips the outer double-quote pair first and only
then truncates at the first `#` and trims, so a `#` inside a fully
quoted value starts a comment and the remainder of the value is
dropped; without a `#` the quoted payload survives (trimmed). -/
theorem c4_quote_comment_quirk (a b : Str) (h : '#' ∉ a) :
    processValue (dquote :: (a ++ '#' :: (b ++ [dquote]))) = goTrimSpace a
    ∧ processValue (dquote :: (a ++ [dquote])) = goTrimSpace a := by
  constructor
  · have hv : dquote :: (a ++ '#' :: (b ++ [dquote]))
        = dquote :: ((a ++ '#' :: b) ++ [dquote]) := by simp
    rw [hv]
    have hpre : goHasPrefix (dquote :: ((a ++ '#' :: b) ++ [dquote])) [dquote] = true := by
      simp [goHasPrefix, List.isPrefixOf_iff_prefix]
    have hsuf : goHasSuffix (dquote :: ((a ++ '#' :: b) ++ [dquote])) [dquote] = true := by
      simp only [goHasSuffix, List.isSuffixOf_iff_suffix]
      exact ⟨dquote :: (a ++ '#' :: b), by simp⟩
    simp only [processValue, hpre, hsuf, Bool.and_self, if_pos]
    simp only [List.drop_one, List.tail_cons, List.dropLast_concat]
    rw [cutAtChar_first '#' a b h]
  · have hpre : goHasPrefix (dquote :: (a ++ [dquote])) [dquote] = true := by
      simp [goHasPrefix, List.isPrefixOf_iff_prefix]
    have hsuf : goHasSuffix (dquote :: (a ++ [dquote])) [dquote] = true := by
      simp only [goHasSuffix, List.isSuffixOf_iff_suffix]
      exact ⟨dquote :: a, by simp⟩
    simp only [processValue, hpre, hsuf, Bool.and_self, if_pos]
    simp only [List.drop_one, List.tail_cons, List.dropLast_concat]
    rw [cutAtChar_not_mem '#' a h]

/-- Witness for C4: the quoted value `"hello#x"` loses everything from
the `#` on, yielding `hello`. -/
theorem c4_quote_comment_quirk_witness :
    '#' ∉ str "hello" ∧ processValue (str "\"hello#x\"") = str "hello" := by
  refine ⟨by decide, ?_⟩
  have he : str "\"hello#x\"" = dquote :: (str "hello" ++ '#' :: (str "x" ++ [dquote])) := by
    decide
  have ht : goTrimSpace (str "hello") = str "hello" := by decide
  rw [he, (c4_quote_comment_quirk (str "hello") (str "x") (by decide)).1, ht]

/-- Counterexample to C5: a bare `optional` word followed by whitespace
is not a modifier — the directive parses as a plain file include whose
target still contains the word, with Required left at true. -/
theorem c5_modifier_counterexample :
    parseIncludeDirective (str "include optional missing.conf")
      = ⟨IncKind.file, str "optional missing.conf", true⟩ := by decide

/-- C5 (amended): the Required flag defaults to true, and the only way
to clear it is the `optional(...)` wrapper recognized after trimming
the keyword, whitespace and surrounding quotes; bare `optional` or
`required` words followed by whitespace become part of the target. -/
theorem c5_optional_wrapper :
    (∀ v : Str,
        (parseIncludeDirective v).required = false ↔
          (goHasPrefix (goTrim (goTrimSpace (goTrimPrefix v (str "include"))) [dquote, squote])
              (str "optional(")
            && goHasSuffix (goTrim (goTrimSpace (goTrimPrefix v (str "include"))) [dquote, squote])
              (str ")")) = true)
    ∧ parseIncludeDirective (str "include optional(\"a.conf\")")
        = ⟨IncKind.file, str "a.conf", false⟩
    ∧ parseIncludeDirective (str "include required a.conf")
        = ⟨IncKind.file, str "required a.conf", true⟩
    ∧ parseIncludeDirective (str "include \"a.conf\"")
        = ⟨IncKind.file, str "a.conf", true⟩ := by
  refine ⟨fun v => ?_, by decide, by decide, by decide⟩
  simp only [parseIncludeDirective]
  simp only [apply_ite Directive.required, ite_self]
  cases hp : goHasPrefix (goTrim (goTrimSpace (goTrimPrefix v (str "include"))) [dquote, squote])
      (str "optional(") <;>
    cases hs : goHasSuffix (goTrim (goTrimSpace (goTrimPrefix v (str "include"))) [dquote, squote])
        (str ")") <;>
      simp [hp, hs]

/-- Witness for C5: a directive with the `optional(...)` wrapper parses
with Required false. -/
theorem c5_optional_wrapper_witness :
    (parseIncludeDirective (str "include optional(\"x.conf\")")).required = false :=
  (c5_optional_wrapper.1 (str "include optional(\"x.conf\")")).mpr (by decide)

/-- C6: for a trimmed non-comment line that is not an include
directive, does not end in an open brace and is not a lone close
brace, splitting on `=` yields fewer than two parts exactly when the
line has no `=` (SplitN with limit 2 can never yield more), and in
that case parseLine returns a syntax error carrying the source path
and line number while storing nothing (state unchanged). -/
theorem c6_invalid_assignment :
    ∀ (w : World) (opts : Options) (fuel : Nat) (line : Str) (ks : List Str) (fp : Str)
      (n : Nat) (st : St),
      goHasPrefix line (str "include ") = false →
      goHasSuffix line (str "\x7b") = false →
      line ≠ str "\x7d" →
      (((goSplitN2 line '=').2 = none ↔ '=' ∉ line)
        ∧ ((goSplitN2 line '=').2 = none →
            run w opts (fuel + 1) (.parseLine line ks fp n) st
              = ⟨st, ks, some (.invalidSyntax fp n line)⟩)) := by
  intro w opts fuel line ks fp n st h1 h2 h3
  refine ⟨goSplitN2_none_iff line '=', fun h4 => ?_⟩
  rcases hs : goSplitN2 line '=' with ⟨p1, p2⟩
  rw [hs] at h4
  simp only at h4
  subst h4
  simp [run, h1, h2, h3, hs]

/-- Witness for C6: the colon-separated line `host` (no `=`) produces
the invalid-syntax error naming the file and line. -/
theorem c6_invalid_assignment_witness :
    run emptyWorld defaultOptions 4 (.parseLine (str "host") [] (str "/m.conf") 7) emptySt
      = ⟨emptySt, [], some (.invalidSyntax (str "/m.conf") 7 (str "host"))⟩ :=
  (c6_invalid_assignment emptyWorld defaultOptions 3 (str "host") [] (str "/m.conf") 7 emptySt
    (by decide) (by decide) (by decide)).2 (by decide)

/-- Counterexample to C2: loading `/m.conf`, which includes the same
URL twice, performs two fetches (the ghost log records the URL twice)
and the URL never enters the Load Ledger; the load still succeeds and
the variable from the URL body is set. -/
theorem c2_url_counterexample :
    (run wC2 defaultOptions 20 (.loadFile (str "/m.conf")) emptySt).st.fetchLog
        = [str "http://h/c", str "http://h/c"]
    ∧ (str "http://h/c") ∉ (run wC2 defaultOptions 20 (.loadFile (str "/m.conf")) emptySt).st.loadedFiles
    ∧ (run wC2 defaultOptions 20 (.loadFile (str "/m.conf")) emptySt).err = none
    ∧ getVariable (run wC2 defaultOptions 20 (.loadFile (str "/m.conf")) emptySt).st (str "k")
        = some (str "v") := by decide

/-- C2 (amended): handleURLInclude never consults the Load Ledger — on
every call with a supported scheme it performs a (fresh) fetch, so
re-including the same URL refetches and reprocesses it; reprocessing
identical content rewrites the same variables, leaving their values
unchanged, as the concrete double-include run shows. -/
theorem c2_url_refetch :
    (∀ (w : World) (opts : Options) (fuel : Nat) (u : Str) (r : Bool) (st : St),
        (urlScheme u = str "http" ∨ urlScheme u = str "https") →
        (st.fetchLog ++ [u]) <+:
          (run w opts (fuel + 1) (.handleURLInclude u r) st).st.fetchLog)
    ∧ ((run wC2 defaultOptions 20 (.loadFile (str "/m.conf")) emptySt).st.fetchLog.length = 2
        ∧ getVariable (run wC2 defaultOptions 20 (.loadFile (str "/m.conf")) emptySt).st (str "k")
            = some (str "v")) := by
  refine ⟨fun w opts fuel u r st h => ?_, by decide, by decide⟩
  have hc : ¬(urlScheme u ≠ str "http" ∧ urlScheme u ≠ str "https") := by
    rcases h with h | h
    · exact fun hx => hx.1 h
    · exact fun hx => hx.2 h
  simp only [run, if_neg hc]
  split
  · split <;> exact List.prefix_refl _
  · split
    · split <;> exact List.prefix_refl _
    · show ({ st with fetchLog := st.fetchLog ++ [u] } : St).fetchLog <+:
        (run w opts fuel (Call.scanLoop u _ 0 [])
          { st with fetchLog := st.fetchLog ++ [u] }).st.fetchLog
      exact (run_mono w opts fuel _ _).2.2

/-- Witness for C2: a direct URL include on a state that has already
fetched once appends a second fetch to the log. -/
theorem c2_url_refetch_witness :
    ((⟨[], [], [], [], [str "http://h/c"]⟩ : St).fetchLog ++ [str "http://h/c"]) <+:
      (run wC2 defaultOptions 8 (.handleURLInclude (str "http://h/c") true)
        ⟨[], [], [], [], [str "http://h/c"]⟩).st.fetchLog :=
  c2_url_refetch.1 wC2 defaultOptions 7 (str "http://h/c") true
    ⟨[], [], [], [], [str "http://h/c"]⟩ (Or.inl (by decide))

/-- When a directory include is optional, no per-file load failure ever
aborts it: apart from the artificial fuel marker, the loop always
returns success. -/
theorem dirLoop_optional (w : World) (opts : Options) :
    ∀ (fuel : Nat) (dir : Str) (entries : List DirEntry) (st : St),
      (run w opts fuel (.dirLoop dir entries false) st).err = none ∨
      (run w opts fuel (.dirLoop dir entries false) st).err = some .fuelOut := by
  intro fuel
  induction fuel with
  | zero => intro dir entries st; exact Or.inr rfl
  | succ fuel ih =>
    intro dir entries st
    cases entries with
    | nil => exact Or.inl rfl
    | cons f rest =>
      simp only [run]
      split
      · exact ih dir rest st
      · split
        · split
          · exact ih dir rest _
          · exact ih dir rest _
        · exact ih dir rest st

/-- Counterexample to C3: over a directory whose listed file `a.conf`
cannot be opened, an optional directory include succeeds (no abort),
while the same include marked required fails — the per-file failure is
gated by the Required flag, not unconditional. -/
theorem c3_dir_counterexample :
    (run wC3 defaultOptions 10 (.handleDirectoryInclude (str "/d") false (str "/m.conf")) emptySt).err
        = none
    ∧ (run wC3 defaultOptions 10 (.handleDirectoryInclude (str "/d") true (str "/m.conf")) emptySt).err
        = some (.includeDirFileFailed (str "/d/a.conf") (.openFailed (str "/d/a.conf"))) := by
  decide

/-- C3 (amended): the directory-open step honors the Required flag
(required: error; optional: warn and skip), and per-file load failures
are also gated by the flag — an optional directory include never
aborts on a per-file failure, while a required one does. -/
theorem c3_dir_required_gate :
    (∀ (w : World) (opts : Options) (fuel : Nat) (dir : Str) (r : Bool) (cf : Str) (st : St),
        isAbs dir = true → alookup w.dirs dir = none →
        run w opts (fuel + 1) (.handleDirectoryInclude dir r cf) st
          = if r then ⟨st, [], some (.readDirFailed dir)⟩ else ⟨st, [], none⟩)
    ∧ (∀ (w : World) (opts : Options) (fuel : Nat) (dir : Str) (entries : List DirEntry) (st : St),
        (run w opts fuel (.dirLoop dir entries false) st).err = none ∨
        (run w opts fuel (.dirLoop dir entries false) st).err = some .fuelOut)
    ∧ (run wC3 defaultOptions 10 (.handleDirectoryInclude (str "/d") true (str "/m.conf")) emptySt).err
        = some (.includeDirFileFailed (str "/d/a.conf") (.openFailed (str "/d/a.conf"))) := by
  refine ⟨fun w opts fuel dir r cf st h1 h2 => ?_, fun w opts => dirLoop_optional w opts, by decide⟩
  simp [run, h1, h2]

/-- Witness for C3: with no directory listed at all, the required form
errors and the optional form succeeds, as the amended theorem states. -/
theorem c3_dir_required_gate_witness :
    run emptyWorld defaultOptions 3 (.handleDirectoryInclude (str "/d") true (str "/m.conf")) emptySt
        = ⟨emptySt, [], some (.readDirFailed (str "/d"))⟩
    ∧ run emptyWorld defaultOptions 3 (.handleDirectoryInclude (str "/d") false (str "/m.conf")) emptySt
        = ⟨emptySt, [], none⟩ := by
  have h1 := c3_dir_required_gate.1 emptyWorld defaultOptions 2 (str "/d") true (str "/m.conf")
    emptySt (by decide) (by decide)
  have h2 := c3_dir_required_gate.1 emptyWorld defaultOptions 2 (str "/d") false (str "/m.conf")
    emptySt (by decide) (by decide)
  exact ⟨h1, h2⟩

/-- In a successful required glob loop every match ends up recorded in
the Load Ledger. -/
theorem globLoop_marks (w : World) (opts : Options) :
    ∀ (fuel : Nat) (ms : List Str) (st : St),
      (run w opts fuel (.globLoop ms true) st).err = none →
      ∀ m ∈ ms, m ∈ (run w opts fuel (.globLoop ms true) st).st.loadedFiles := by
  intro fuel
  induction fuel with
  | zero => intro ms st h; simp [run] at h
  | succ fuel ih =>
    intro ms st h m hm
    cases ms with
    | nil => simp at hm
    | cons m0 rest =>
      simp only [run] at h ⊢
      rcases ho : (run w opts fuel (.loadFile m0) st).err with _ | e
      · simp only [ho] at h ⊢
        rcases List.mem_cons.mp hm with hm0 | hmr
        · subst hm0
          cases fuel with
          | zero => simp [run] at ho
          | succ fuel2 =>
            exact (run_mono w opts (fuel2 + 1) (.globLoop rest true) _).1 m
              (loadFile_marks w opts fuel2 m st)
        · exact ih rest _ h m hmr
      · simp only [ho] at h
        simp at h

/-- C7: a glob include with zero matches errors exactly when Required
(an optional zero-match glob succeeds silently); with matches, every
matched file is loaded — each match is recorded in the ledger on
success — and in the concrete two-file scenario both keys appear in
the Variable Table with their values. -/
theorem c7_glob :
    (∀ (w : World) (opts : Options) (fuel : Nat) (pat cf : Str) (r : Bool) (st : St),
        isAbs pat = true → globLookup w pat = some [] →
        run w opts (fuel + 2) (.handleGlobInclude pat r cf) st
          = if r then ⟨st, [], some (.noGlobMatches pat)⟩ else ⟨st, [], none⟩)
    ∧ (∀ (w : World) (opts : Options) (fuel : Nat) (ms : List Str) (st : St),
        (run w opts fuel (.globLoop ms true) st).err = none →
        ∀ m ∈ ms, m ∈ (run w opts fuel (.globLoop ms true) st).st.loadedFiles)
    ∧ ((run wC7 defaultOptions 10 (.handleGlobInclude (str "/g/*.conf") true (str "/m.conf")) emptySt).err
          = none
        ∧ getVariable (run wC7 defaultOptions 10
            (.handleGlobInclude (str "/g/*.conf") true (str "/m.conf")) emptySt).st (str "x")
          = some (str "1")
        ∧ getVariable (run wC7 defaultOptions 10
            (.handleGlobInclude (str "/g/*.conf") true (str "/m.conf")) emptySt).st (str "y")
          = some (str "2")
        ∧ (str "/g/a.conf") ∈ (run wC7 defaultOptions 10
            (.handleGlobInclude (str "/g/*.conf") true (str "/m.conf")) emptySt).st.loadedFiles
        ∧ (str "/g/b.conf") ∈ (run wC7 defaultOptions 10
            (.handleGlobInclude (str "/g/*.conf") true (str "/m.conf")) emptySt).st.loadedFiles) := by
  refine ⟨fun w opts fuel pat cf r st h1 h2 => ?_, globLoop_marks, by decide⟩
  cases r <;> simp [run, h1, h2]

/-- Witness for C7: the zero-match branch at a concrete world (pattern
listed with no matches) errors when required, and the marking branch
applied to the concrete successful loop of `wC7`. -/
theorem c7_glob_witness :
    run (⟨[], [], [(str "/z/*.conf", some [])], []⟩ : World) defaultOptions 6
        (.handleGlobInclude (str "/z/*.conf") true (str "/m.conf")) emptySt
      = ⟨emptySt, [], some (.noGlobMatches (str "/z/*.conf"))⟩
    ∧ (str "/g/a.conf") ∈ (run wC7 defaultOptions 9
        (.globLoop [str "/g/a.conf", str "/g/b.conf"] true) emptySt).st.loadedFiles := by
  constructor
  · exact c7_glob.1 (⟨[], [], [(str "/z/*.conf", some [])], []⟩ : World) defaultOptions 4
      (str "/z/*.conf") (str "/m.conf") true emptySt (by decide) (by decide)
  · exact c7_glob.2.1 wC7 defaultOptions 9 [str "/g/a.conf", str "/g/b.conf"] emptySt
      (by decide) (str "/g/a.conf") (by decide)

/-- In a successful required directory loop, every regular entry whose
name matches a configured include pattern is recorded in the ledger. -/
theorem dirLoop_marks (w : World) (opts : Options) :
    ∀ (fuel : Nat) (dir : Str) (entries : List DirEntry) (st : St),
      (run w opts fuel (.dirLoop dir entries true) st).err = none →
      ∀ f ∈ entries, f.isDir = false →
        (opts.IncludePatterns.any fun pat => goHasSuffix f.name pat) = true →
        goJoin dir f.name ∈ (run w opts fuel (.dirLoop dir entries true) st).st.loadedFiles := by
  intro fuel
  induction fuel with
  | zero => intro dir entries st h; simp [run] at h
  | succ fuel ih =>
    intro dir entries st h f hf hdir hmatch
    cases entries with
    | nil => simp at hf
    | cons f0 rest =>
      simp only [run] at h ⊢
      by_cases hd : f0.isDir = true
      · simp only [hd, if_pos] at h ⊢
        rcases List.mem_cons.mp hf with hf0 | hfr
        · subst hf0; rw [hd] at hdir; cases hdir
        · exact ih dir rest st h f hfr hdir hmatch
      · replace hd : f0.isDir = false := by simpa using hd
        simp only [hd, Bool.false_eq_true, if_false] at h ⊢
        by_cases hp : (opts.IncludePatterns.any fun pat => goHasSuffix f0.name pat) = true
        · simp only [hp, if_pos] at h ⊢
          rcases ho : (run w opts fuel (.loadFile (goJoin dir f0.name)) st).err with _ | e
          · simp only [ho] at h ⊢
            rcases List.mem_cons.mp hf with hf0 | hfr
            · subst hf0
              cases fuel with
              | zero => simp [run] at ho
              | succ fuel2 =>
                exact (run_mono w opts (fuel2 + 1) (.dirLoop dir rest true) _).1 _
                  (loadFile_marks w opts fuel2 _ st)
            · exact ih dir rest _ h f hfr hdir hmatch
          · simp only [ho] at h
            simp at h
        · replace hp : (opts.IncludePatterns.any fun pat => goHasSuffix f0.name pat) = false := by
            simpa using hp
          simp only [hp, Bool.false_eq_true, if_false] at h ⊢
          rcases List.mem_cons.mp hf with hf0 | hfr
          · subst hf0; rw [hp] at hmatch; cases hmatch
          · exact ih dir rest st h f hfr hdir hmatch

/-- Counterexample to C8: `/d` contains the regular file `c.txt`
(content `x = 1`), but because its name matches no configured include
pattern the file is never opened: the include succeeds, the ledger
does not record it, and no key `x` is stored. -/
theorem c8_pattern_counterexample :
    (run wC8txt defaultOptions 10 (.handleDirectoryInclude (str "/d") true (str "/m.conf")) emptySt).err
        = none
    ∧ (str "/d/c.txt") ∉ (run wC8txt defaultOptions 10
        (.handleDirectoryInclude (str "/d") true (str "/m.conf")) emptySt).st.loadedFiles
    ∧ getVariable (run wC8txt defaultOptions 10
        (.handleDirectoryInclude (str "/d") true (str "/m.conf")) emptySt).st (str "x")
        = none := by decide

/-- C8 (amended): a directory include loads exactly the regular files
whose names end in one of the configured IncludePatterns suffixes —
sub-directory entries and non-matching names are skipped outright, no
recursion — and in the two-file scenario both keys appear whichever
order the listing presents the files in. -/
theorem c8_dir_patterns :
    (∀ (w : World) (opts : Options) (fuel : Nat) (dir : Str) (entries : List DirEntry) (st : St),
        (run w opts fuel (.dirLoop dir entries true) st).err = none →
        ∀ f ∈ entries, f.isDir = false →
          (opts.IncludePatterns.any fun pat => goHasSuffix f.name pat) = true →
          goJoin dir f.name ∈ (run w opts fuel (.dirLoop dir entries true) st).st.loadedFiles)
    ∧ (∀ (w : World) (opts : Options) (fuel : Nat) (dir : Str) (rest : List DirEntry)
          (r : Bool) (st : St) (f : DirEntry), f.isDir = true →
        run w opts (fuel + 1) (.dirLoop dir (f :: rest) r) st
          = run w opts fuel (.dirLoop dir rest r) st)
    ∧ (∀ (w : World) (opts : Options) (fuel : Nat) (dir : Str) (rest : List DirEntry)
          (r : Bool) (st : St) (f : DirEntry), f.isDir = false →
        (opts.IncludePatterns.any fun pat => goHasSuffix f.name pat) = false →
        run w opts (fuel + 1) (.dirLoop dir (f :: rest) r) st
          = run w opts fuel (.dirLoop dir rest r) st)
    ∧ (getVariable (run wC8 defaultOptions 10
          (.handleDirectoryInclude (str "/d") true (str "/m.conf")) emptySt).st (str "x")
          = some (str "1")
        ∧ getVariable (run wC8 defaultOptions 10
            (.handleDirectoryInclude (str "/d") true (str "/m.conf")) emptySt).st (str "y")
          = some (str "2")
        ∧ getVariable (run wC8 defaultOptions 10
            (.handleDirectoryInclude (str "/d2") true (str "/m.conf")) emptySt).st (str "x")
          = some (str "1")
        ∧ getVariable (run wC8 defaultOptions 10
            (.handleDirectoryInclude (str "/d2") true (str "/m.conf")) emptySt).st (str "y")
          = some (str "2")) := by
  refine ⟨dirLoop_marks, fun w opts fuel dir rest r st f hd => ?_,
    fun w opts fuel dir rest r st f hd hp => ?_, by decide⟩
  · simp [run, hd]
  · simp [run, hd, hp]

/-- Witness for C8: the marking conjunct applied to the successful
concrete loop over `/d`, and the skip conjuncts at a sub-directory
entry and a `.txt` entry. -/
theorem c8_dir_patterns_witness :
    (str "/d/a.conf") ∈ (run wC8 defaultOptions 9
        (.dirLoop (str "/d") [⟨str "a.conf", false⟩, ⟨str "b.conf", false⟩] true) emptySt).st.loadedFiles
    ∧ run wC8txt defaultOptions 5 (.dirLoop (str "/d") [⟨str "sub", true⟩] true) emptySt
        = run wC8txt defaultOptions 4 (.dirLoop (str "/d") [] true) emptySt
    ∧ run wC8txt defaultOptions 5 (.dirLoop (str "/d") [⟨str "c.txt", false⟩] true) emptySt
        = run wC8txt defaultOptions 4 (.dirLoop (str "/d") [] true) emptySt := by
  refine ⟨?_, ?_, ?_⟩
  · exact c8_dir_patterns.1 wC8 defaultOptions 9 (str "/d")
      [⟨str "a.conf", false⟩, ⟨str "b.conf", false⟩] emptySt (by decide)
      ⟨str "a.conf", false⟩ (by decide) (by decide) (by decide)
  · exact c8_dir_patterns.2.1 wC8txt defaultOptions 4 (str "/d") [] true emptySt
      ⟨str "sub", true⟩ (by decide)
  · exact c8_dir_patterns.2.2.1 wC8txt defaultOptions 4 (str "/d") [] true emptySt
      ⟨str "c.txt", false⟩ (by decide) (by decide)

theorem isSome_alookup_mapInsert (m : List (Str × Str)) (k v n : Str) :
    (alookup (mapInsert m k v) n).isSome = true ↔
      n = k ∨ (alookup m n).isSome = true := by
  induction m with
  | nil => by_cases h : k = n <;> simp [mapInsert, alookup, h, eq_comm]
  | cons a rest ih =>
    obtain ⟨a1, a2⟩ := a
    simp only [mapInsert]
    by_cases h : a1 = k
    · subst h
      simp only [if_pos rfl, alookup]
      by_cases hn : a1 = n
      · simp [hn]
      · have hn2 : ¬n = a1 := fun hx => hn hx.symm
        simp [hn, hn2]
    · simp only [if_neg h, alookup]
      by_cases hn : a1 = n
      · simp [hn]
      · simp [hn, ih]

theorem applyLoop_preserve (opts : Options) (pfx : Str) :
    ∀ (vs env0 : List (Str × Str)) (n : Str),
      (alookup env0 n).isSome = true →
      (alookup (applyLoop opts pfx vs env0) n).isSome = true := by
  intro vs
  induction vs with
  | nil => intro env0 n h; simpa [applyLoop] using h
  | cons kv rest ih =>
    intro env0 n h
    obtain ⟨k, v⟩ := kv
    simp only [applyLoop]
    split
    · exact ih env0 n h
    · exact ih _ n ((isSome_alookup_mapInsert env0 _ v n).mpr (Or.inr h))

theorem applyLoop_mem (opts : Options) (pfx : Str) :
    ∀ (vs env0 : List (Str × Str)) (k v : Str), (k, v) ∈ vs →
      (alookup (applyLoop opts pfx vs env0)
        (pfx ++ goToUpper (goReplaceAll k '.' '_'))).isSome = true := by
  intro vs
  induction vs with
  | nil => intro env0 k v h; simp at h
  | cons kv rest ih =>
    intro env0 k v h
    obtain ⟨k0, v0⟩ := kv
    simp only [applyLoop]
    rcases List.mem_cons.mp h with h0 | hr
    · obtain ⟨rfl, rfl⟩ : k = k0 ∧ v = v0 := by cases h0; exact ⟨rfl, rfl⟩
      split
      · next hcond =>
        exact applyLoop_preserve opts pfx rest env0 _ ((Bool.and_eq_true _ _).mp hcond).2
      · exact applyLoop_preserve opts pfx rest _ _
          ((isSome_alookup_mapInsert env0 _ v _).mpr (Or.inl rfl))
    · split
      · exact ih env0 k v hr
      · exact ih _ k v hr

theorem applyLoop_keys (opts : Options) (pfx : Str) :
    ∀ (vs env0 : List (Str × Str)) (n : Str),
      (alookup (applyLoop opts pfx vs env0) n).isSome = true ↔
        (alookup env0 n).isSome = true ∨
          ∃ kv ∈ vs, n = pfx ++ goToUpper (goReplaceAll kv.1 '.' '_') := by
  intro vs
  induction vs with
  | nil => intro env0 n; simp [applyLoop]
  | cons kv rest ih =>
    intro env0 n
    obtain ⟨k0, v0⟩ := kv
    simp only [applyLoop]
    split
    · next hcond =>
      have hA : (alookup env0 (pfx ++ goToUpper (goReplaceAll k0 '.' '_'))).isSome = true :=
        ((Bool.and_eq_true _ _).mp hcond).2
      rw [ih]
      simp only [List.exists_mem_cons_iff]
      constructor
      · rintro (h | h)
        · exact Or.inl h
        · exact Or.inr (Or.inr h)
      · rintro (h | h | h)
        · exact Or.inl h
        · exact Or.inl (h ▸ hA)
        · exact Or.inr h
    · rw [ih, isSome_alookup_mapInsert]
      simp only [List.exists_mem_cons_iff]
      constructor
      · rintro ((h | h) | h)
        · exact Or.inr (Or.inl h)
        · exact Or.inl h
        · exact Or.inr (Or.inr h)
      · rintro (h | h | h)
        · exact Or.inl (Or.inr h)
        · exact Or.inl (Or.inl h)
        · exact Or.inr h

/-- C9: every Variable Table entry is exported under the name
`prefix ++ ToUpper(ReplaceAll(key,".","_"))` — the name is present in
the environment afterwards whatever the overwrite policy — and
re-running the export pass (as a repeated load does) produces exactly
the same set of environment names: the prefix is applied once, never
stacked. -/
theorem c9_export_names :
    (∀ (opts : Options) (st : St) (k v : Str), (k, v) ∈ st.vars →
        (alookup (applyVariables opts st).1.env
            (st.prefixStr ++ goToUpper (goReplaceAll k '.' '_'))).isSome = true)
    ∧ (∀ (opts : Options) (st : St) (n : Str),
        (alookup (applyVariables opts (applyVariables opts st).1).1.env n).isSome
          = (alookup (applyVariables opts st).1.env n).isSome) := by
  constructor
  · intro opts st k v h
    exact applyLoop_mem opts st.prefixStr st.vars st.env k v h
  · intro opts st n
    have h1 : (alookup (applyVariables opts (applyVariables opts st).1).1.env n).isSome = true ↔
        (alookup (applyVariables opts st).1.env n).isSome = true := by
      rw [show (applyVariables opts (applyVariables opts st).1).1.env
          = applyLoop opts st.prefixStr st.vars ((applyVariables opts st).1.env) from rfl]
      rw [applyLoop_keys]
      constructor
      · rintro (h | ⟨kv, hkv, he⟩)
        · exact h
        · exact he ▸ applyLoop_mem opts st.prefixStr st.vars st.env kv.1 kv.2 (by simpa using hkv)
      · intro h
        exact Or.inl h
    cases ha : (alookup (applyVariables opts (applyVariables opts st).1).1.env n).isSome <;>
      cases hb : (alookup (applyVariables opts st).1.env n).isSome <;> simp_all

/-- Witness for C9 at the concrete state holding the entry (k, v). -/
theorem c9_export_names_witness :
    (str "k", str "v") ∈ stC1.vars ∧
      (alookup (applyVariables defaultOptions stC1).1.env
          (stC1.prefixStr ++ goToUpper (goReplaceAll (str "k") '.' '_'))).isSome = true :=
  ⟨by decide, c9_export_names.1 defaultOptions stC1 (str "k") (str "v") (by decide)⟩

/-- C10: SetPrefix stores the upper-cased, whitespace-trimmed argument
with an underscore appended unconditionally; SetPrefix of the empty
string therefore stores `_` rather than restoring the no-prefix
default, no SetPrefix call can yield the empty prefix again, and after
SetPrefix of the empty string every exported name begins with an
underscore. -/
theorem c10_setPrefix_always_underscore :
    ((setPrefix emptySt (str "")).prefixStr = str "_")
    ∧ (∀ (st : St) (p : Str),
        (setPrefix st p).prefixStr = goToUpper (goTrimSpace p) ++ ['_'])
    ∧ (∀ (st : St) (p : Str), (setPrefix st p).prefixStr ≠ [])
    ∧ (∀ (opts : Options) (st : St) (k v : Str), (k, v) ∈ st.vars →
        (alookup (applyVariables opts (setPrefix st (str ""))).1.env
            ('_' :: goToUpper (goReplaceAll k '.' '_'))).isSome = true) := by
  refine ⟨by decide, fun st p => rfl, fun st p h => ?_, fun opts st k v h => ?_⟩
  · simp [setPrefix] at h
  · exact applyLoop_mem opts ['_'] st.vars st.env k v h

/-- Witness for C10: the underscore-prefixed name is exported for the
concrete entry (k, v) after SetPrefix of the empty string. -/
theorem c10_setPrefix_always_underscore_witness :
    (str "k", str "v") ∈ stC1.vars ∧
      (alookup (applyVariables defaultOptions (setPrefix stC1 (str ""))).1.env
          ('_' :: goToUpper (goReplaceAll (str "k") '.' '_'))).isSome = true :=
  ⟨by decide,
    c10_setPrefix_always_underscore.2.2.2 defaultOptions stC1 (str "k") (str "v") (by decide)⟩
